import Mathlib

/-!
Verification development for the OCRRAG repository.

Shallow embedding of the quote-verification module
(src/utils/quote_verify.py), the chunker (src/rag/embeddings.py,
chunk_text) and the RAG chat orchestration (src/rag/chat.py,
RAGChat.chat), together with theorems settling the specification
claims about them.

Strings are modelled as lists of characters.  Python floats that only
flow through an external similarity scorer are modelled as rationals,
and the scorer itself (difflib.SequenceMatcher.ratio) is an abstract
parameter, so every theorem quantifies over it.  The external
collaborators of RAGChat.chat (the vector store search and the OpenAI
completion call) are likewise parameters: the search result list is an
input and the generator is an abstract function.
-/

set_option maxHeartbeats 1000000
set_option maxRecDepth 100000

/-- The double-quote character. -/
def dqc : Char := Char.ofNat 34

/-- The single-quote character. -/
def sqc : Char := Char.ofNat 39

/-- Python `\s` on ASCII input: the whitespace characters recognised by
`re.sub(r"\s+", " ", ...)` and `str.strip()`. -/
def pyIsSpace (c : Char) : Bool :=
  c == ' ' || c == Char.ofNat 9 || c == Char.ofNat 10 || c == Char.ofNat 13
    || c == Char.ofNat 11 || c == Char.ofNat 12

/-- Python `str.strip()`: remove leading and trailing whitespace. -/
def pyStrip (s : List Char) : List Char :=
  ((s.dropWhile pyIsSpace).reverse.dropWhile pyIsSpace).reverse

/-- Worker for `re.sub(r"\s+", " ", text)`: the flag records whether the
previous character was whitespace (i.e. whether we are inside a
whitespace run that has already emitted its single space). -/
def collapseWSAux : Bool → List Char → List Char
  | _, [] => []
  | inRun, c :: rest =>
    if pyIsSpace c then
      if inRun then collapseWSAux true rest
      else ' ' :: collapseWSAux true rest
    else c :: collapseWSAux false rest

/-- `re.sub(r"\s+", " ", text)`: replace every maximal run of whitespace
characters by a single space. -/
def collapseWS (cs : List Char) : List Char :=
  collapseWSAux false cs

/-- `normalize_text` from src/utils/quote_verify.py: lowercase, collapse
whitespace runs to single spaces, strip. -/
def normalize_text (text : List Char) : List Char :=
  pyStrip (collapseWS (text.map Char.toLower))

/-- Shallow embedding of `re.findall` for the two quote-extraction
regexes of `extract_quotes`.  Both regexes have the shape
`q([^q]{m,})q` for a quote character `q` (with `+` being `{1,}`).
The Python regex engine scans left to right; at a position holding `q`
it greedily takes the maximal run of non-`q` characters; the match
succeeds when the run has length at least `m` (and at least 1) and is
followed by a closing `q`, in which case scanning resumes after the
closing quote; otherwise scanning resumes at the next occurrence of
`q` (every intermediate position fails immediately, since the regex
starts with the literal `q`).  The state is `none` outside a candidate
match and `some acc` after an opening quote, with `acc` the reversed
run of non-`q` characters read so far; a closing quote after a run that
is too short acts as the opening quote of the next candidate. -/
def scanAux (q : Char) (m : Nat) : Option (List Char) → List Char → List (List Char)
  | none, [] => []
  | none, c :: rest =>
    if c = q then scanAux q m (some []) rest else scanAux q m none rest
  | some _, [] => []
  | some acc, c :: rest =>
    if c = q then
      if 1 ≤ acc.length ∧ m ≤ acc.length then acc.reverse :: scanAux q m none rest
      else scanAux q m (some []) rest
    else scanAux q m (some (c :: acc)) rest

/-- Run the scanner from the outside state on the whole text. -/
def scanQuotes (q : Char) (m : Nat) (cs : List Char) : List (List Char) :=
  scanAux q m none cs

/-- `extract_quotes` from src/utils/quote_verify.py:
`re.findall(r'"([^"]+)"', text)` followed by
`re.findall(r"'([^']{10,})'", text)`, concatenated. -/
def extract_quotes (text : List Char) : List (List Char) :=
  scanQuotes dqc 1 text ++ scanQuotes sqc 10 text

/-- A source-text record handed to `find_quote_in_source`:
`{"text": ..., "filename": ..., "page_number": ...}`. -/
structure Source where
  text : List Char
  filename : List Char
  page_number : Int
deriving DecidableEq

/-- Python substring containment `a in b` for strings. -/
def pyInfix (pat : List Char) : List Char → Bool
  | [] => pat.isEmpty
  | c :: rest => pat.isPrefixOf (c :: rest) || pyInfix pat rest

/-- The sliding-window fuzzy loop of `find_quote_in_source`: for
`i in range(len(normalized_source) - quote_len + 1)` compare the quote
against the window of the source starting at `i`, and report whether
some window reaches the threshold.  `matchScore` abstracts
`difflib.SequenceMatcher(None, a, b).ratio()`.  Python `range(k)` is
empty when `k ≤ 0`, hence the `Int` subtraction followed by `toNat`. -/
def windowHit (matchScore : List Char → List Char → ℚ) (threshold : ℚ)
    (nq ns : List Char) : Bool :=
  (List.range ((ns.length : Int) - (nq.length : Int) + 1).toNat).any
    (fun i => decide (threshold ≤ matchScore nq ((ns.drop i).take nq.length)))

/-- The source-list loop of `find_quote_in_source`: for each source in
order, first the exact (normalized) substring check, then the fuzzy
sliding window; the first source that passes either check is returned. -/
def findQuoteGo (matchScore : List Char → List Char → ℚ) (threshold : ℚ)
    (nq : List Char) : List Source → Option Source
  | [] => none
  | s :: rest =>
    let ns := normalize_text s.text
    if pyInfix nq ns then some s
    else if windowHit matchScore threshold nq ns then some s
    else findQuoteGo matchScore threshold nq rest

/-- `find_quote_in_source` from src/utils/quote_verify.py. -/
def find_quote_in_source (matchScore : List Char → List Char → ℚ)
    (quote : List Char) (source_texts : List Source) (threshold : ℚ) :
    Option Source :=
  findQuoteGo matchScore threshold (normalize_text quote) source_texts

/-- An entry of the `verified` list built by `verify_quotes_in_response`. -/
structure VerifiedQuote where
  quote : List Char
  source_file : List Char
  source_page : Int
deriving DecidableEq

/-- The dict returned by `verify_quotes_in_response`. -/
structure VerifyResult where
  status : String
  verified : List VerifiedQuote
  unverified : List (List Char)
  all_verified : Bool
deriving DecidableEq

/-- The quote loop of `verify_quotes_in_response`: split the extracted
quotes, in order, into the verified records and the unverified list. -/
def verifyLoop (matchScore : List Char → List Char → ℚ)
    (source_texts : List Source) (threshold : ℚ) :
    List (List Char) → List VerifiedQuote × List (List Char)
  | [] => ([], [])
  | q :: rest =>
    let p := verifyLoop matchScore source_texts threshold rest
    match find_quote_in_source matchScore q source_texts threshold with
    | some s => (⟨q, s.filename, s.page_number⟩ :: p.1, p.2)
    | none => (p.1, q :: p.2)

/-- `verify_quotes_in_response` from src/utils/quote_verify.py. -/
def verify_quotes_in_response (matchScore : List Char → List Char → ℚ)
    (response : List Char) (source_texts : List Source) (threshold : ℚ) :
    VerifyResult :=
  let quotes := extract_quotes response
  if quotes.isEmpty then
    ⟨"no_quotes", [], [], true⟩
  else
    let p := verifyLoop matchScore source_texts threshold quotes
    ⟨if p.2.isEmpty then "verified"
      else if !p.1.isEmpty then "partial" else "unverified",
     p.1, p.2, p.2.isEmpty⟩

/-- The sentinel marker used by `remove_unverified_quotes`. -/
def SENTINEL : List Char := "[UNVERIFIED QUOTE REMOVED]".data

/-- Worker for Python `str.replace`: scan the string one character at a
time; the counter holds the number of characters of an already-matched
occurrence that remain to be skipped. -/
def pyReplaceAux (pat rep : List Char) : Nat → List Char → List Char
  | 0, [] => []
  | 0, c :: rest =>
    if pat.isPrefixOf (c :: rest) then
      rep ++ pyReplaceAux pat rep (pat.length - 1) rest
    else c :: pyReplaceAux pat rep 0 rest
  | _ + 1, [] => []
  | k + 1, _ :: rest => pyReplaceAux pat rep k rest

/-- Python `str.replace(pat, rep)`: replace the left-to-right
non-overlapping occurrences of `pat` by `rep`.  (In the source the
pattern is a quote-wrapped string, hence never empty; the empty-pattern
guard merely keeps the definition total.) -/
def pyReplace (s pat rep : List Char) : List Char :=
  if pat.isEmpty then s else pyReplaceAux pat rep 0 s

/-- `remove_unverified_quotes` from src/utils/quote_verify.py: for each
unverified quote, replace its double-quote-wrapped occurrences and then
its single-quote-wrapped occurrences by the sentinel. -/
def remove_unverified_quotes (response : List Char)
    (unverified_quotes : List (List Char)) : List Char :=
  unverified_quotes.foldl
    (fun modified quote =>
      pyReplace (pyReplace modified (dqc :: (quote ++ [dqc])) SENTINEL)
        (sqc :: (quote ++ [sqc])) SENTINEL)
    response

/-- Python slice/`rfind` index adjustment: a negative index counts from
the end of the string and is clamped at 0; a non-negative index is
clamped at the length. -/
def pyAdj (n : Nat) (i : Int) : Nat :=
  if i < 0 then (i + n).toNat else min i.toNat n

/-- Python string slice `s[i:j]`. -/
def pySlice (s : List Char) (i j : Int) : List Char :=
  (s.take (pyAdj s.length j)).drop (pyAdj s.length i)

/-- Python `s.rfind(c, i, j)` for a single-character needle: the largest
index `k` with `i ≤ k < j` (after Python index adjustment) such that
`s[k] = c`, and `-1` when there is none. -/
def pyRfindChar (s : List Char) (c : Char) (i j : Int) : Int :=
  let lo := pyAdj s.length i
  let hi := pyAdj s.length j
  match ((List.range hi).filter (fun k => lo ≤ k && s.getD k ' ' == c)).getLast? with
  | some k => (k : Int)
  | none => -1

/-- One iteration of the `while start < len(text)` loop of `chunk_text`
(src/rag/embeddings.py): compute the emitted (stripped) chunk and the
next value of the cursor `start`.  `end` starts as `start + chunk_size`;
if that lies strictly inside the text, the loop looks for the last
period or newline in the 100 characters before `end` and, when that
break point lies strictly after `start`, moves `end` to just past it;
the cursor then advances to `end - overlap`. -/
def chunkStep (text : List Char) (chunk_size overlap : Int) (start : Int) :
    List Char × Int :=
  let end0 := start + chunk_size
  let end1 :=
    if end0 < (text.length : Int) then
      let last_period := pyRfindChar text '.' (end0 - 100) end0
      let last_newline := pyRfindChar text (Char.ofNat 10) (end0 - 100) end0
      let break_point := max last_period last_newline
      if start < break_point then break_point + 1 else end0
    else end0
  (pyStrip (pySlice text start end1), end1 - overlap)

/-- The `while start < len(text)` loop of `chunk_text`, with explicit
fuel because the source loop does not terminate on every input. -/
def chunkLoop (text : List Char) (chunk_size overlap : Int) :
    Nat → Int → Option (List (List Char))
  | 0, _ => none
  | fuel + 1, start =>
    if start < (text.length : Int) then
      (chunkLoop text chunk_size overlap fuel
          (chunkStep text chunk_size overlap start).2).map
        ((chunkStep text chunk_size overlap start).1 :: ·)
    else some []

/-- `chunk_text` from src/rag/embeddings.py.  `none` means the loop did
not finish within `fuel` iterations; a terminating run returns `some`
of the chunk list (with empty chunks filtered out, as in the source). -/
def chunk_text (text : List Char) (chunk_size overlap : Int) (fuel : Nat) :
    Option (List (List Char)) :=
  if text = [] ∨ (text.length : Int) ≤ chunk_size then
    some (if text = [] then [] else [text])
  else
    (chunkLoop text chunk_size overlap fuel 0).map
      (fun chunks => chunks.filter (fun c => !c.isEmpty))

/-- A retrieval result from `VectorStore.search` (src/rag/vector_store.py). -/
structure SearchResult where
  text : List Char
  filename : List Char
  page_number : Int
  chunk_index : Int
  score : ℚ
deriving DecidableEq

/-- A citation record built by `RAGChat.chat`. -/
structure Citation where
  filename : List Char
  page_number : Int
  snippet : List Char
  relevance_score : ℚ
deriving DecidableEq

/-- The `quote_verification` field of a `ChatResponse`: either one of
the status-only dicts (`{"status": "no_sources"}` on refusal,
`{"status": "skipped"}` when verification is disabled) or the full
report of `verify_quotes_in_response`. -/
inductive QVer where
  | status_only (status : String)
  | report (r : VerifyResult)
deriving DecidableEq

/-- The `status` entry of a `quote_verification` dict. -/
def QVer.statusOf : QVer → String
  | .status_only s => s
  | .report r => r.status

/-- The `ChatResponse` dataclass of src/rag/chat.py. -/
structure ChatResponse where
  answer : List Char
  citations : List Citation
  sources_used : List SearchResult
  quote_verification : QVer
  refused : Bool
  refusal_reason : Option String
deriving DecidableEq

/-- Join a list of strings with a separator (Python `sep.join(parts)`). -/
def joinWith (sep : List Char) : List (List Char) → List Char
  | [] => []
  | [x] => x
  | x :: y :: t => x ++ sep ++ joinWith sep (y :: t)

/-- `RAGChat._format_context`. -/
def format_context (results : List SearchResult) : List Char :=
  joinWith "\n\n".data
    (results.map (fun r =>
      "---\nSource: ".data ++ r.filename ++ ", Page ".data
        ++ (toString r.page_number).data ++ "\n".data ++ r.text ++ "\n---".data))

/-- `RAGChat._build_sources_for_verification`. -/
def build_sources_for_verification (results : List SearchResult) : List Source :=
  results.map (fun r => ⟨r.text, r.filename, r.page_number⟩)

/-- `RAGChat.chat` from src/rag/chat.py.  The vector-store search is
external, so its output `results` is a parameter; `gen` abstracts the
OpenAI chat-completion call (applied to the user-message content built
from the retrieved context and the query; the constant system prompt is
part of the abstracted collaborator); `matchScore` abstracts the fuzzy
scorer used by quote verification. -/
def RAGChat_chat (matchScore : List Char → List Char → ℚ)
    (gen : List Char → List Char) (results : List SearchResult)
    (query : List Char) (min_relevance : ℚ) (verify_quotes : Bool) :
    ChatResponse :=
  let relevant_results := results.filter (fun r => min_relevance ≤ r.score)
  if relevant_results.isEmpty then
    { answer := "I cannot find relevant information in the provided documents to answer this question.".data
      citations := []
      sources_used := []
      quote_verification := .status_only "no_sources"
      refused := true
      refusal_reason := some "No relevant sources found" }
  else
    let context := format_context relevant_results
    let answer0 := gen ("Context from documents:\n\n".data ++ context
      ++ "\n\nQuestion: ".data ++ query)
    let citations := relevant_results.map (fun r =>
      { filename := r.filename
        page_number := r.page_number
        snippet := if 150 < r.text.length then r.text.take 150 ++ "...".data
          else r.text
        relevance_score := r.score : Citation })
    if verify_quotes then
      let qv := verify_quotes_in_response matchScore answer0
        (build_sources_for_verification relevant_results) (85 / 100)
      let answer1 :=
        if !qv.all_verified then
          remove_unverified_quotes answer0 qv.unverified
            ++ "\n\n⚠️ Note: Some quoted text could not be verified against sources and was removed.".data
        else answer0
      ⟨answer1, citations, relevant_results, .report qv, false, none⟩
    else
      ⟨answer0, citations, relevant_results, .status_only "skipped", false, none⟩

/-! ### Helper lemmas -/

theorem pyInfix_iff (pat : List Char) :
    ∀ s : List Char, pyInfix pat s = true ↔ pat <:+: s := by
  intro s
  induction s with
  | nil => simp [pyInfix, List.isEmpty_iff]
  | cons c rest ih =>
    simp [pyInfix, ih, List.infix_cons_iff, List.isPrefixOf_iff_prefix]

theorem scanAux_sound (q : Char) (m : Nat) :
    ∀ (cs : List Char) (st : Option (List Char)),
      (∀ acc, st = some acc → ∀ c ∈ acc, c ≠ q) →
      ∀ s ∈ scanAux q m st cs, 1 ≤ s.length ∧ m ≤ s.length ∧ ∀ c ∈ s, c ≠ q := by
  intro cs
  induction cs with
  | nil =>
    intro st hst s hs
    cases st <;> simp [scanAux] at hs
  | cons c rest ih =>
    intro st hst s hs
    cases st with
    | none =>
      rw [scanAux] at hs
      by_cases hc : c = q
      · rw [if_pos hc] at hs
        exact ih (some []) (by simp) s hs
      · rw [if_neg hc] at hs
        exact ih none (by simp) s hs
    | some acc =>
      rw [scanAux] at hs
      by_cases hc : c = q
      · rw [if_pos hc] at hs
        by_cases hg : 1 ≤ acc.length ∧ m ≤ acc.length
        · rw [if_pos hg] at hs
          rcases List.mem_cons.mp hs with h1 | h1
          · subst h1
            refine ⟨by simpa using hg.1, by simpa using hg.2, ?_⟩
            intro a ha
            exact hst acc rfl a (List.mem_reverse.mp ha)
          · exact ih none (by simp) s h1
        · rw [if_neg hg] at hs
          exact ih (some []) (by simp) s hs
      · rw [if_neg hc] at hs
        refine ih (some (c :: acc)) ?_ s hs
        intro acc2 heq a ha
        cases heq
        rcases List.mem_cons.mp ha with h1 | h1
        · subst h1; exact hc
        · exact hst acc rfl a h1

theorem scanQuotes_sound (q : Char) (m : Nat) (cs : List Char) :
    ∀ s ∈ scanQuotes q m cs, 1 ≤ s.length ∧ m ≤ s.length ∧ ∀ c ∈ s, c ≠ q :=
  scanAux_sound q m cs none (by simp)

theorem verifyLoop_fst_map (matchScore : List Char → List Char → ℚ)
    (srcs : List Source) (th : ℚ) (qs : List (List Char)) :
    (verifyLoop matchScore srcs th qs).1.map VerifiedQuote.quote
      = qs.filter (fun q => (find_quote_in_source matchScore q srcs th).isSome) := by
  induction qs with
  | nil => rfl
  | cons q rest ih =>
    rw [verifyLoop]
    cases h : find_quote_in_source matchScore q srcs th with
    | none => simpa [h, List.filter_cons] using ih
    | some s => simpa [h, List.filter_cons] using ih

theorem verifyLoop_snd (matchScore : List Char → List Char → ℚ)
    (srcs : List Source) (th : ℚ) (qs : List (List Char)) :
    (verifyLoop matchScore srcs th qs).2
      = qs.filter (fun q => (find_quote_in_source matchScore q srcs th).isNone) := by
  induction qs with
  | nil => rfl
  | cons q rest ih =>
    rw [verifyLoop]
    cases h : find_quote_in_source matchScore q srcs th with
    | none => simpa [h, List.filter_cons] using ih
    | some s => simpa [h, List.filter_cons] using ih

theorem verifyLoop_length (matchScore : List Char → List Char → ℚ)
    (srcs : List Source) (th : ℚ) (qs : List (List Char)) :
    (verifyLoop matchScore srcs th qs).1.length
      + (verifyLoop matchScore srcs th qs).2.length = qs.length := by
  induction qs with
  | nil => rfl
  | cons q rest ih =>
    rw [verifyLoop]
    cases h : find_quote_in_source matchScore q srcs th with
    | none => simp only [List.length_cons]; omega
    | some s => simp only [List.length_cons]; omega

theorem verify_eq_of_no_quotes (matchScore : List Char → List Char → ℚ)
    (response : List Char) (srcs : List Source) (th : ℚ)
    (hQ : extract_quotes response = []) :
    verify_quotes_in_response matchScore response srcs th
      = ⟨"no_quotes", [], [], true⟩ := by
  simp [verify_quotes_in_response, hQ]

theorem verify_eq_of_quotes (matchScore : List Char → List Char → ℚ)
    (response : List Char) (srcs : List Source) (th : ℚ)
    (hQ : extract_quotes response ≠ []) :
    verify_quotes_in_response matchScore response srcs th
      = ⟨if (verifyLoop matchScore srcs th (extract_quotes response)).2.isEmpty
            then "verified"
          else if !(verifyLoop matchScore srcs th (extract_quotes response)).1.isEmpty
            then "partial" else "unverified",
         (verifyLoop matchScore srcs th (extract_quotes response)).1,
         (verifyLoop matchScore srcs th (extract_quotes response)).2,
         (verifyLoop matchScore srcs th (extract_quotes response)).2.isEmpty⟩ := by
  rw [verify_quotes_in_response]
  simp only [List.isEmpty_iff, if_neg hQ]

theorem findQuoteGo_isSome_of_infix (matchScore : List Char → List Char → ℚ)
    (th : ℚ) (nq : List Char) (sources : List Source)
    (h : ∃ s ∈ sources, pyInfix nq (normalize_text s.text) = true) :
    (findQuoteGo matchScore th nq sources).isSome = true := by
  induction sources with
  | nil => simp at h
  | cons s rest ih =>
    rw [findQuoteGo]
    by_cases h1 : pyInfix nq (normalize_text s.text) = true
    · simp [h1]
    · have h2 : ∃ s2 ∈ rest, pyInfix nq (normalize_text s2.text) = true := by
        rcases h with ⟨s0, hs0, hi⟩
        rcases List.mem_cons.mp hs0 with h3 | h3
        · exact absurd (h3 ▸ hi) h1
        · exact ⟨s0, h3, hi⟩
      by_cases h3 : windowHit matchScore th nq (normalize_text s.text) = true
      · simp [h1, h3]
      · simp [h1, h3, ih h2]

/-! ### Claim theorems -/

/-- C1: for every quote and non-empty source list, if the
case/whitespace-normalized quote is a substring of the normalized text
of some source, then `find_quote_in_source` (at any threshold, for any
fuzzy scorer) returns a source, and `verify_quotes_in_response` places
every extracted occurrence of that quote in the verified list and never
in the unverified list. -/
theorem quote_exact_substring_is_verified
    (matchScore : List Char → List Char → ℚ) (th : ℚ)
    (response : List Char) (sources : List Source) (quote : List Char)
    (hq : quote ∈ extract_quotes response)
    (hsub : ∃ s ∈ sources, pyInfix (normalize_text quote) (normalize_text s.text) = true) :
    (find_quote_in_source matchScore quote sources th).isSome = true
    ∧ (∃ v ∈ (verify_quotes_in_response matchScore response sources th).verified,
        v.quote = quote)
    ∧ quote ∉ (verify_quotes_in_response matchScore response sources th).unverified := by
  have hsome : (find_quote_in_source matchScore quote sources th).isSome = true :=
    findQuoteGo_isSome_of_infix matchScore th (normalize_text quote) sources hsub
  have hQ : extract_quotes response ≠ [] := List.ne_nil_of_mem hq
  rw [verify_eq_of_quotes matchScore response sources th hQ]
  refine ⟨hsome, ?_, ?_⟩
  · have hmem : quote ∈ (verifyLoop matchScore sources th
        (extract_quotes response)).1.map VerifiedQuote.quote := by
      rw [verifyLoop_fst_map]
      exact List.mem_filter.mpr ⟨hq, hsome⟩
    rcases List.mem_map.mp hmem with ⟨v, hv, hveq⟩
    exact ⟨v, hv, hveq⟩
  · intro hmem
    rw [verifyLoop_snd] at hmem
    have := (List.mem_filter.mp hmem).2
    rw [Option.isNone_iff_eq_none] at this
    rw [this] at hsome
    simp at hsome

/-- C1 witness: a concrete response containing the quote
`hello world`, and a source whose normalized text contains it. -/
theorem quote_exact_substring_is_verified_witness :
    (find_quote_in_source (fun _ _ => 0) "hello world".data
        [⟨"xx Hello  World yy".data, "f".data, 1⟩] (85 / 100)).isSome = true
    ∧ (∃ v ∈ (verify_quotes_in_response (fun _ _ => 0)
          ([dqc] ++ "hello world".data ++ [dqc])
          [⟨"xx Hello  World yy".data, "f".data, 1⟩] (85 / 100)).verified,
        v.quote = "hello world".data)
    ∧ "hello world".data ∉ (verify_quotes_in_response (fun _ _ => 0)
          ([dqc] ++ "hello world".data ++ [dqc])
          [⟨"xx Hello  World yy".data, "f".data, 1⟩] (85 / 100)).unverified :=
  quote_exact_substring_is_verified (fun _ _ => 0) (85 / 100)
    ([dqc] ++ "hello world".data ++ [dqc])
    [⟨"xx Hello  World yy".data, "f".data, 1⟩] "hello world".data
    (by decide) (by decide)

/-- C9: `verify_quotes_in_response` partitions the extracted quotes
exactly: the quote fields of the verified records are the extracted
quotes whose lookup succeeded, in order; the unverified list is the
extracted quotes whose lookup failed, in order; and the two lengths add
up to the number of extracted quotes (duplicates counted separately). -/
theorem verify_partitions_extracted_quotes
    (matchScore : List Char → List Char → ℚ) (response : List Char)
    (srcs : List Source) (th : ℚ) :
    ((verify_quotes_in_response matchScore response srcs th).verified.map
        VerifiedQuote.quote
      = (extract_quotes response).filter
          (fun q => (find_quote_in_source matchScore q srcs th).isSome))
    ∧ ((verify_quotes_in_response matchScore response srcs th).unverified
      = (extract_quotes response).filter
          (fun q => (find_quote_in_source matchScore q srcs th).isNone))
    ∧ ((verify_quotes_in_response matchScore response srcs th).verified.length
        + (verify_quotes_in_response matchScore response srcs th).unverified.length
      = (extract_quotes response).length) := by
  by_cases hQ : extract_quotes response = []
  · rw [verify_eq_of_no_quotes matchScore response srcs th hQ, hQ]
    exact ⟨rfl, rfl, rfl⟩
  · rw [verify_eq_of_quotes matchScore response srcs th hQ]
    exact ⟨verifyLoop_fst_map matchScore srcs th (extract_quotes response),
      verifyLoop_snd matchScore srcs th (extract_quotes response),
      verifyLoop_length matchScore srcs th (extract_quotes response)⟩

/-- C10: when the normalized quote is strictly longer than every
normalized source text, `find_quote_in_source` returns `none` for every
scorer and every threshold: the substring check cannot succeed and the
sliding-window loop runs over an empty range. -/
theorem find_quote_longer_than_sources_none
    (matchScore : List Char → List Char → ℚ) (th : ℚ)
    (quote : List Char) (sources : List Source)
    (h : ∀ s ∈ sources,
      (normalize_text s.text).length < (normalize_text quote).length) :
    find_quote_in_source matchScore quote sources th = none
    ∧ ∀ s ∈ sources,
        windowHit matchScore th (normalize_text quote) (normalize_text s.text)
          = false := by
  have hwin : ∀ s ∈ sources,
      windowHit matchScore th (normalize_text quote) (normalize_text s.text)
        = false := by
    intro s hs
    have hlen := h s hs
    have hz : (((normalize_text s.text).length : Int)
        - ((normalize_text quote).length : Int) + 1).toNat = 0 := by
      rw [Int.toNat_eq_zero]
      omega
    rw [windowHit, hz]
    rfl
  refine ⟨?_, hwin⟩
  rw [find_quote_in_source]
  induction sources with
  | nil => rfl
  | cons s rest ih =>
    rw [findQuoteGo]
    have hinf : pyInfix (normalize_text quote) (normalize_text s.text) = false := by
      by_contra hcon
      rw [Bool.not_eq_false] at hcon
      have := ((pyInfix_iff (normalize_text quote) (normalize_text s.text)).mp
        hcon).length_le
      have := h s (List.mem_cons_self s rest)
      omega
    rw [hinf]
    rw [hwin s (List.mem_cons_self s rest)]
    simp only [Bool.false_eq_true, if_false]
    exact ih (fun s2 hs2 => h s2 (List.mem_cons_of_mem s hs2))
      (fun s2 hs2 => hwin s2 (List.mem_cons_of_mem s hs2))

/-- C10 witness: the quote `abc` against a single source `a`. -/
theorem find_quote_longer_than_sources_none_witness :
    find_quote_in_source (fun _ _ => 1) "abc".data
      [⟨"a".data, "f".data, 1⟩] 0 = none :=
  (find_quote_longer_than_sources_none (fun _ _ => 1) 0 "abc".data
    [⟨"a".data, "f".data, 1⟩] (by decide)).1

/-- C2: the `status` of `verify_quotes_in_response` is `no_quotes` iff
no quote was extracted (and then both lists are empty and
`all_verified` is true); `verified` iff at least one quote was
extracted and every extracted quote matched; `unverified` iff at least
one was extracted and none matched; `partial` exactly when some matched
and some did not; and `all_verified` is true iff the unverified list is
empty. -/
theorem verify_status_characterization
    (matchScore : List Char → List Char → ℚ) (response : List Char)
    (srcs : List Source) (th : ℚ) :
    ((verify_quotes_in_response matchScore response srcs th).status = "no_quotes"
        ↔ extract_quotes response = [])
    ∧ (extract_quotes response = [] →
        (verify_quotes_in_response matchScore response srcs th).all_verified = true
        ∧ (verify_quotes_in_response matchScore response srcs th).verified = []
        ∧ (verify_quotes_in_response matchScore response srcs th).unverified = [])
    ∧ ((verify_quotes_in_response matchScore response srcs th).status = "verified"
        ↔ extract_quotes response ≠ []
          ∧ ∀ q ∈ extract_quotes response,
              (find_quote_in_source matchScore q srcs th).isSome = true)
    ∧ ((verify_quotes_in_response matchScore response srcs th).status = "unverified"
        ↔ extract_quotes response ≠ []
          ∧ ∀ q ∈ extract_quotes response,
              find_quote_in_source matchScore q srcs th = none)
    ∧ ((verify_quotes_in_response matchScore response srcs th).status = "partial"
        ↔ (∃ q ∈ extract_quotes response,
              (find_quote_in_source matchScore q srcs th).isSome = true)
          ∧ (∃ q ∈ extract_quotes response,
              find_quote_in_source matchScore q srcs th = none))
    ∧ ((verify_quotes_in_response matchScore response srcs th).all_verified = true
        ↔ (verify_quotes_in_response matchScore response srcs th).unverified = []) := by
  by_cases hQ : extract_quotes response = []
  · rw [verify_eq_of_no_quotes matchScore response srcs th hQ]
    refine ⟨by simp [hQ], fun _ => ⟨rfl, rfl, rfl⟩, ?_, ?_, ?_, by simp⟩
    · exact iff_of_false (by decide) (fun h => h.1 hQ)
    · exact iff_of_false (by decide) (fun h => h.1 hQ)
    · exact iff_of_false (by decide) (fun h => by
        rcases h.1 with ⟨q, hq, _⟩
        rw [hQ] at hq
        exact absurd hq (List.not_mem_nil q))
  · rw [verify_eq_of_quotes matchScore response srcs th hQ]
    dsimp only
    have h1 := verifyLoop_fst_map matchScore srcs th (extract_quotes response)
    have h2 := verifyLoop_snd matchScore srcs th (extract_quotes response)
    have h2nil : (verifyLoop matchScore srcs th (extract_quotes response)).2 = []
        ↔ ∀ q ∈ extract_quotes response,
            (find_quote_in_source matchScore q srcs th).isSome = true := by
      rw [h2, List.filter_eq_nil_iff]
      simp [Option.isNone_iff_eq_none, Option.isSome_iff_ne_none]
    have h1nil : (verifyLoop matchScore srcs th (extract_quotes response)).1 = []
        ↔ ∀ q ∈ extract_quotes response,
            find_quote_in_source matchScore q srcs th = none := by
      rw [← List.map_eq_nil_iff (f := VerifiedQuote.quote), h1,
        List.filter_eq_nil_iff]
      simp [Option.isSome_iff_ne_none]
    have h2ne : (verifyLoop matchScore srcs th (extract_quotes response)).2 ≠ []
        ↔ ∃ q ∈ extract_quotes response,
            find_quote_in_source matchScore q srcs th = none := by
      constructor
      · intro h
        rcases List.exists_mem_of_ne_nil _ h with ⟨q, hq⟩
        rw [h2] at hq
        have hmf := List.mem_filter.mp hq
        exact ⟨q, hmf.1, Option.isNone_iff_eq_none.mp hmf.2⟩
      · intro ⟨q, hq, hnone⟩ heq
        have := h2nil.mp heq q hq
        rw [hnone] at this
        simp at this
    have h1ne : (verifyLoop matchScore srcs th (extract_quotes response)).1 ≠ []
        ↔ ∃ q ∈ extract_quotes response,
            (find_quote_in_source matchScore q srcs th).isSome = true := by
      constructor
      · intro h
        rcases List.exists_mem_of_ne_nil _ h with ⟨v, hv⟩
        have hmm : v.quote ∈ (verifyLoop matchScore srcs th
            (extract_quotes response)).1.map VerifiedQuote.quote :=
          List.mem_map_of_mem VerifiedQuote.quote hv
        rw [h1] at hmm
        have hmf := List.mem_filter.mp hmm
        exact ⟨v.quote, hmf.1, hmf.2⟩
      · intro ⟨q, hq, hsome⟩ hnil
        rw [h1nil] at hnil
        rw [hnil q hq] at hsome
        simp at hsome
    by_cases hb2 : (verifyLoop matchScore srcs th (extract_quotes response)).2.isEmpty = true
    · have hb2' : (verifyLoop matchScore srcs th (extract_quotes response)).2 = [] :=
        List.isEmpty_iff.mp hb2
      have hstat : (if (verifyLoop matchScore srcs th (extract_quotes response)).2.isEmpty
            then "verified"
          else if !(verifyLoop matchScore srcs th (extract_quotes response)).1.isEmpty
            then "partial" else "unverified") = "verified" := if_pos hb2
      rw [hstat, hb2]
      refine ⟨iff_of_false (by decide) hQ, fun h => absurd h hQ, ?_, ?_, ?_,
        by simp [hb2']⟩
      · exact iff_of_true rfl ⟨hQ, h2nil.mp hb2'⟩
      · refine iff_of_false (by decide) ?_
        intro ⟨_, hall⟩
        rcases List.exists_mem_of_ne_nil _ hQ with ⟨q, hq⟩
        have := h2nil.mp hb2' q hq
        rw [hall q hq] at this
        simp at this
      · refine iff_of_false (by decide) ?_
        intro ⟨_, ⟨q, hq, hnone⟩⟩
        have := h2nil.mp hb2' q hq
        rw [hnone] at this
        simp at this
    · have hb2' : (verifyLoop matchScore srcs th (extract_quotes response)).2 ≠ [] :=
        fun h => hb2 (by simp [h])
      have hb2f : (verifyLoop matchScore srcs th (extract_quotes response)).2.isEmpty
          = false := Bool.eq_false_iff.mpr hb2
      by_cases hb1 : (verifyLoop matchScore srcs th (extract_quotes response)).1.isEmpty = true
      · have hb1' : (verifyLoop matchScore srcs th (extract_quotes response)).1 = [] :=
          List.isEmpty_iff.mp hb1
        have hstat : (if (verifyLoop matchScore srcs th (extract_quotes response)).2.isEmpty
              then "verified"
            else if !(verifyLoop matchScore srcs th (extract_quotes response)).1.isEmpty
              then "partial" else "unverified") = "unverified" := by
          rw [if_neg hb2, if_neg (by simp [hb1])]
        rw [hstat, hb2f]
        refine ⟨iff_of_false (by decide) hQ, fun h => absurd h hQ, ?_, ?_, ?_,
          by simp [hb2']⟩
        · refine iff_of_false (by decide) ?_
          intro ⟨_, hall⟩
          exact hb2' (h2nil.mpr hall)
        · exact iff_of_true rfl ⟨hQ, h1nil.mp hb1'⟩
        · refine iff_of_false (by decide) ?_
          intro ⟨⟨q, hq, hsome⟩, _⟩
          rw [h1nil.mp hb1' q hq] at hsome
          simp at hsome
      · have hb1' : (verifyLoop matchScore srcs th (extract_quotes response)).1 ≠ [] :=
          fun h => hb1 (by simp [h])
        have hb1f : (verifyLoop matchScore srcs th (extract_quotes response)).1.isEmpty
            = false := Bool.eq_false_iff.mpr hb1
        have hstat : (if (verifyLoop matchScore srcs th (extract_quotes response)).2.isEmpty
              then "verified"
            else if !(verifyLoop matchScore srcs th (extract_quotes response)).1.isEmpty
              then "partial" else "unverified") = "partial" := by
          rw [if_neg hb2, if_pos (by rw [hb1f]; rfl)]
        rw [hstat, hb2f]
        refine ⟨iff_of_false (by decide) hQ, fun h => absurd h hQ, ?_, ?_, ?_,
          by simp [hb2']⟩
        · refine iff_of_false (by decide) ?_
          intro ⟨_, hall⟩
          exact hb2' (h2nil.mpr hall)
        · refine iff_of_false (by decide) ?_
          intro ⟨_, hall⟩
          exact hb1' (h1nil.mpr hall)
        · exact iff_of_true rfl ⟨h1ne.mp hb1', h2ne.mp hb2'⟩

/-- C2 witness: the theorem instantiated at a concrete response with
one double-quoted quote verified against a matching source. -/
theorem verify_status_characterization_witness :
    (verify_quotes_in_response (fun _ _ => 0)
        ([dqc] ++ "hi there".data ++ [dqc])
        [⟨"say hi there now".data, "f".data, 1⟩] 1).status = "verified"
      ↔ extract_quotes ([dqc] ++ "hi there".data ++ [dqc]) ≠ []
        ∧ ∀ q ∈ extract_quotes ([dqc] ++ "hi there".data ++ [dqc]),
            (find_quote_in_source (fun _ _ => 0) q
              [⟨"say hi there now".data, "f".data, 1⟩] 1).isSome = true :=
  (verify_status_characterization (fun _ _ => 0)
    ([dqc] ++ "hi there".data ++ [dqc])
    [⟨"say hi there now".data, "f".data, 1⟩] 1).2.2.1

/-- C5: `extract_quotes` returns exactly the double-quote matches (in
order of appearance) followed by the single-quote matches (in order of
appearance); every double-quote match is a non-empty run of
non-double-quote characters, and every single-quote match has content
of at least 10 characters — a shorter single-quoted span never appears. -/
theorem extract_quotes_characterization (text : List Char) :
    extract_quotes text = scanQuotes dqc 1 text ++ scanQuotes sqc 10 text
    ∧ (∀ s ∈ scanQuotes dqc 1 text, 1 ≤ s.length ∧ ∀ c ∈ s, c ≠ dqc)
    ∧ (∀ s ∈ scanQuotes sqc 10 text, 10 ≤ s.length ∧ ∀ c ∈ s, c ≠ sqc) := by
  refine ⟨rfl, ?_, ?_⟩
  · intro s hs
    have h := scanQuotes_sound dqc 1 text s hs
    exact ⟨h.1, h.2.2⟩
  · intro s hs
    have h := scanQuotes_sound sqc 10 text s hs
    exact ⟨h.2.1, h.2.2⟩

/-- C5 witness: a ten-character single-quoted span is extracted and the
theorem certifies its length bound. -/
theorem extract_quotes_characterization_witness :
    extract_quotes ([sqc] ++ "abcdefghij".data ++ [sqc])
      = scanQuotes dqc 1 ([sqc] ++ "abcdefghij".data ++ [sqc])
        ++ scanQuotes sqc 10 ([sqc] ++ "abcdefghij".data ++ [sqc])
    ∧ 10 ≤ "abcdefghij".data.length
    ∧ ∀ c ∈ "abcdefghij".data, c ≠ sqc :=
  ⟨(extract_quotes_characterization ([sqc] ++ "abcdefghij".data ++ [sqc])).1,
   ((extract_quotes_characterization ([sqc] ++ "abcdefghij".data ++ [sqc])).2.2
     "abcdefghij".data (by decide)).1,
   ((extract_quotes_characterization ([sqc] ++ "abcdefghij".data ++ [sqc])).2.2
     "abcdefghij".data (by decide)).2⟩

/-- C6 counterexample: for the two-character input consisting of a
space and `a` (whose length is at most the chunk size), `chunk_text`
returns the input unchanged, not the trimmed text the claim demands. -/
theorem chunk_text_short_input_not_trimmed_counterexample :
    chunk_text [' ', 'a'] 500 50 0 = some [[' ', 'a']]
    ∧ chunk_text [' ', 'a'] 500 50 0 ≠ some [pyStrip [' ', 'a']] := by
  constructor
  · decide
  · decide

/-- C6 (amended): for every text with `len(text) ≤ chunk_size`,
`chunk_text` returns a single-element list containing the input text
unchanged (not trimmed), and the empty list for the empty text. -/
theorem chunk_text_short_input_returns_input (text : List Char)
    (cs ov : Int) (fuel : Nat) (h : (text.length : Int) ≤ cs) :
    chunk_text text cs ov fuel = some (if text = [] then [] else [text]) := by
  rw [chunk_text, if_pos (Or.inr h)]

/-- C6 witness: a one-character text with the default parameters. -/
theorem chunk_text_short_input_returns_input_witness :
    chunk_text ['a'] 500 50 0 = some [['a']] := by
  simpa using chunk_text_short_input_returns_input ['a'] 500 50 0 (by decide)

/-- The input on which the chunking loop of `chunk_text` moves its
cursor backwards and then diverges: `a.` followed by 148 copies of
`a`, with `chunk_size = 100` and `overlap = 50` (so `overlap` is
strictly smaller than `chunk_size`).  On the first iteration the
sentence-boundary adjustment moves `end` back to index 2, so the next
cursor value is `2 - 50 = -48`; afterwards the cursor oscillates to
`-50` and stays there forever. -/
def chunkBugText : List Char := 'a' :: '.' :: List.replicate 148 'a'

theorem chunkLoop_bug_m50 : ∀ f : Nat, chunkLoop chunkBugText 100 50 f (-50) = none
  | 0 => rfl
  | f + 1 => by
    rw [chunkLoop, if_pos (by decide : (-50 : Int) < (chunkBugText.length : Int))]
    rw [(by decide : (chunkStep chunkBugText 100 50 (-50)).2 = -50)]
    rw [chunkLoop_bug_m50 f]
    rfl

theorem chunkLoop_bug_m48 : ∀ f : Nat, chunkLoop chunkBugText 100 50 f (-48) = none
  | 0 => rfl
  | f + 1 => by
    rw [chunkLoop, if_pos (by decide : (-48 : Int) < (chunkBugText.length : Int))]
    rw [(by decide : (chunkStep chunkBugText 100 50 (-48)).2 = -50)]
    rw [chunkLoop_bug_m50 f]
    rfl

theorem chunkLoop_bug_0 : ∀ f : Nat, chunkLoop chunkBugText 100 50 f 0 = none
  | 0 => rfl
  | f + 1 => by
    rw [chunkLoop, if_pos (by decide : (0 : Int) < (chunkBugText.length : Int))]
    rw [(by decide : (chunkStep chunkBugText 100 50 0).2 = -48)]
    rw [chunkLoop_bug_m48 f]
    rfl

/-- C7: the claim (forward progress of the chunking loop whenever
`0 < chunk_size`, `0 ≤ overlap` and `overlap < chunk_size`, hence
termination) is violated by the code: on `chunkBugText` with
`chunk_size = 100` and `overlap = 50` the first iteration moves the
cursor from 0 to −48 (strictly backwards), and the loop never
terminates — `chunk_text` returns `none` for every amount of fuel. -/
theorem chunk_text_forward_progress_violated :
    (0 : Int) < 100 ∧ (0 : Int) ≤ 50 ∧ (50 : Int) < 100
    ∧ (chunkStep chunkBugText 100 50 0).2 = -48
    ∧ ¬ (0 : Int) < (chunkStep chunkBugText 100 50 0).2
    ∧ ∀ fuel : Nat, chunk_text chunkBugText 100 50 fuel = none := by
  refine ⟨by norm_num, by norm_num, by norm_num, by decide, by decide, ?_⟩
  intro fuel
  rw [chunk_text, if_neg (by decide)]
  rw [chunkLoop_bug_0 fuel]
  rfl

/-- C3: when every retrieved candidate scores strictly below
`min_relevance` (including the empty candidate list), `chat` refuses:
`refused = true`, `refusal_reason = "No relevant sources found"`, empty
citations, quote-verification status `no_sources`, and the result does
not depend on the generation collaborator at all (no generation call is
made). -/
theorem chat_all_below_min_relevance_refuses
    (matchScore : List Char → List Char → ℚ) (results : List SearchResult)
    (query : List Char) (minr : ℚ) (vq : Bool)
    (h : ∀ r ∈ results, r.score < minr) :
    ∀ gen : List Char → List Char,
      (RAGChat_chat matchScore gen results query minr vq).refused = true
      ∧ (RAGChat_chat matchScore gen results query minr vq).refusal_reason
          = some "No relevant sources found"
      ∧ (RAGChat_chat matchScore gen results query minr vq).citations = []
      ∧ (RAGChat_chat matchScore gen results query minr vq).quote_verification.statusOf
          = "no_sources"
      ∧ ∀ gen2 : List Char → List Char,
          RAGChat_chat matchScore gen2 results query minr vq
            = RAGChat_chat matchScore gen results query minr vq := by
  have hfil : results.filter (fun r => minr ≤ r.score) = [] :=
    List.filter_eq_nil_iff.mpr (fun r hr => by simp [not_le.mpr (h r hr)])
  intro gen
  refine ⟨?_, ?_, ?_, ?_, ?_⟩ <;>
    simp only [RAGChat_chat, hfil, List.isEmpty_nil, if_true] <;>
    first
      | rfl
      | exact fun _ => trivial

/-- C3 witness: one candidate scoring 0 against `min_relevance = 1`. -/
theorem chat_all_below_min_relevance_refuses_witness :
    (RAGChat_chat (fun _ _ => 0) (fun _ => [])
        [⟨"t".data, "f".data, 1, 0, 0⟩] "q".data 1 true).refused = true
    ∧ (RAGChat_chat (fun _ _ => 0) (fun _ => [])
        [⟨"t".data, "f".data, 1, 0, 0⟩] "q".data 1 true).refusal_reason
        = some "No relevant sources found"
    ∧ (RAGChat_chat (fun _ _ => 0) (fun _ => [])
        [⟨"t".data, "f".data, 1, 0, 0⟩] "q".data 1 true).citations = []
    ∧ (RAGChat_chat (fun _ _ => 0) (fun _ => [])
        [⟨"t".data, "f".data, 1, 0, 0⟩] "q".data 1 true).quote_verification.statusOf
        = "no_sources"
    ∧ ∀ gen2 : List Char → List Char,
        RAGChat_chat (fun _ _ => 0) gen2
            [⟨"t".data, "f".data, 1, 0, 0⟩] "q".data 1 true
          = RAGChat_chat (fun _ _ => 0) (fun _ => [])
              [⟨"t".data, "f".data, 1, 0, 0⟩] "q".data 1 true :=
  chat_all_below_min_relevance_refuses (fun _ _ => 0)
    [⟨"t".data, "f".data, 1, 0, 0⟩] "q".data 1 true (by decide) (fun _ => [])

/-- C8 counterexample: a retrieved chunk of 151 characters produces a
citation whose snippet has length 153 (150 kept characters plus the
three-character ellipsis), exceeding the claimed bound of 150. -/
theorem citation_snippet_can_exceed_150_counterexample :
    ((RAGChat_chat (fun _ _ => 0) (fun _ => [])
        [⟨List.replicate 151 'a', "f".data, 1, 0, 1⟩] [] 0 false).citations.map
      (fun c => c.snippet.length)) = [153]
    ∧ ¬ (153 ≤ 150) := by
  constructor
  · decide
  · decide

/-- C8 (amended): every citation snippet built by `chat` has length at
most 153: the text itself when it is at most 150 characters, and 150
characters plus the 3-character ellipsis otherwise. -/
theorem citation_snippet_length_at_most_153
    (matchScore : List Char → List Char → ℚ) (gen : List Char → List Char)
    (results : List SearchResult) (query : List Char) (minr : ℚ) (vq : Bool)
    (c : Citation)
    (hc : c ∈ (RAGChat_chat matchScore gen results query minr vq).citations) :
    c.snippet.length ≤ 153 := by
  simp only [RAGChat_chat] at hc
  by_cases hrel : (results.filter (fun r => minr ≤ r.score)).isEmpty
  · rw [if_pos hrel] at hc
    simp at hc
  · rw [if_neg hrel] at hc
    cases vq with
    | true =>
      simp only [if_true] at hc
      rcases List.mem_map.mp hc with ⟨r, _, rfl⟩
      by_cases hlen : 150 < r.text.length
      · simp only [if_pos hlen]
        simp [List.length_take]
      · simp only [if_neg hlen]
        simp only [not_lt] at hlen
        calc r.text.length ≤ 150 := hlen
          _ ≤ 153 := by norm_num
    | false =>
      simp only [Bool.false_eq_true, if_false] at hc
      rcases List.mem_map.mp hc with ⟨r, _, rfl⟩
      by_cases hlen : 150 < r.text.length
      · simp only [if_pos hlen]
        simp [List.length_take]
      · simp only [if_neg hlen]
        simp only [not_lt] at hlen
        calc r.text.length ≤ 150 := hlen
          _ ≤ 153 := by norm_num

/-- C8 witness: the 151-character chunk yields a snippet of length 153,
within the amended bound. -/
theorem citation_snippet_length_at_most_153_witness :
    (⟨"f".data, 1, List.replicate 150 'a' ++ "...".data, 1⟩ : Citation).snippet.length
      ≤ 153 :=
  citation_snippet_length_at_most_153 (fun _ _ => 0) (fun _ => [])
    [⟨List.replicate 151 'a', "f".data, 1, 0, 1⟩] [] 0 false
    ⟨"f".data, 1, List.replicate 150 'a' ++ "...".data, 1⟩ (by decide)

/-- Decomposition of `s` along the left-to-right non-overlapping
occurrences of `pat` (Python `s.split(pat)`): the returned segments are
the parts of `s` between consecutive occurrences.  Used to state what
`pyReplace` preserves. -/
def pySplitOn (pat : List Char) : List Char → List (List Char)
  | [] => [[]]
  | c :: rest =>
    if hp2 : pat.isEmpty then [c :: rest]
    else if pat.isPrefixOf (c :: rest) then
      [] :: pySplitOn pat ((c :: rest).drop pat.length)
    else (c :: (pySplitOn pat rest).headI) :: (pySplitOn pat rest).tail
termination_by s => s.length
decreasing_by
  · have h1 : 1 ≤ pat.length := by
      cases pat with
      | nil => simp at hp2
      | cons a t => simp
    simp only [List.length_drop, List.length_cons]
    omega
  · simp

theorem pySplitOn_ne_nil (pat : List Char) : ∀ s : List Char, pySplitOn pat s ≠ []
  | [] => by unfold pySplitOn; simp
  | c :: rest => by
    unfold pySplitOn
    split
    · simp
    · split <;> simp

theorem joinWith_cons_cons (sep c : List Char) (h : List Char)
    (t : List (List Char)) :
    joinWith sep ((c ++ h) :: t) = c ++ joinWith sep (h :: t) := by
  cases t with
  | nil => rfl
  | cons y ys => simp [joinWith]

theorem pyReplaceAux_skip (pat rep : List Char) :
    ∀ (k : Nat) (s : List Char),
      pyReplaceAux pat rep k s = pyReplaceAux pat rep 0 (s.drop k) := by
  intro k
  induction k with
  | zero => intro s; rw [List.drop_zero]
  | succ n ih =>
    intro s
    cases s with
    | nil => simp [pyReplaceAux]
    | cons c rest => simp [pyReplaceAux, ih rest, List.drop_succ_cons]

theorem pyReplace_nil (pat rep : List Char) : pyReplace [] pat rep = [] := by
  rw [pyReplace]
  split <;> simp [pyReplaceAux]

theorem pyReplace_cons (pat rep : List Char) (c : Char) (rest : List Char)
    (hp : pat ≠ []) :
    pyReplace (c :: rest) pat rep
      = if pat.isPrefixOf (c :: rest) then
          rep ++ pyReplace ((c :: rest).drop pat.length) pat rep
        else c :: pyReplace rest pat rep := by
  have hpe : pat.isEmpty = false := by simp [List.isEmpty_iff, hp]
  have h1 : 1 ≤ pat.length := List.length_pos.mpr hp
  by_cases hpre : pat.isPrefixOf (c :: rest)
  · rw [if_pos hpre]
    rw [pyReplace, hpe]
    simp only [Bool.false_eq_true, if_false]
    rw [pyReplaceAux]
    rw [if_pos hpre]
    rw [pyReplaceAux_skip pat rep (pat.length - 1) rest]
    rw [pyReplace, hpe]
    simp only [Bool.false_eq_true, if_false]
    congr 2
    obtain ⟨n, hn⟩ : ∃ n, pat.length = n + 1 := ⟨pat.length - 1, by omega⟩
    rw [hn, List.drop_succ_cons]
    congr 1
  · rw [if_neg hpre]
    rw [pyReplace, hpe]
    simp only [Bool.false_eq_true, if_false]
    rw [pyReplaceAux]
    rw [if_neg hpre]
    rw [pyReplace, hpe]
    simp only [Bool.false_eq_true, if_false]

theorem pySplitOn_cons_pos (pat : List Char) (c : Char) (rest : List Char)
    (hp : pat ≠ []) (hpre : pat.isPrefixOf (c :: rest)) :
    pySplitOn pat (c :: rest)
      = [] :: pySplitOn pat ((c :: rest).drop pat.length) := by
  conv_lhs => unfold pySplitOn
  rw [dif_neg (by simp [List.isEmpty_iff, hp] : ¬ pat.isEmpty = true)]
  rw [if_pos hpre]

theorem pySplitOn_cons_neg (pat : List Char) (c : Char) (rest : List Char)
    (hp : pat ≠ []) (hpre : ¬ pat.isPrefixOf (c :: rest)) :
    pySplitOn pat (c :: rest)
      = (c :: (pySplitOn pat rest).headI) :: (pySplitOn pat rest).tail := by
  conv_lhs => unfold pySplitOn
  rw [dif_neg (by simp [List.isEmpty_iff, hp] : ¬ pat.isEmpty = true)]
  rw [if_neg hpre]

theorem split_join (pat rep : List Char) (hp : pat ≠ []) :
    ∀ s : List Char,
      joinWith pat (pySplitOn pat s) = s
      ∧ pyReplace s pat rep = joinWith rep (pySplitOn pat s)
  | [] => by
    constructor
    · unfold pySplitOn; rfl
    · rw [pyReplace_nil]; unfold pySplitOn; rfl
  | c :: rest => by
    by_cases hpre : pat.isPrefixOf (c :: rest)
    · have hdrop := split_join pat rep hp ((c :: rest).drop pat.length)
      rcases hsq : pySplitOn pat ((c :: rest).drop pat.length) with _ | ⟨hh, tt⟩
      · exact absurd hsq (pySplitOn_ne_nil pat _)
      · have hpp : pat ++ (c :: rest).drop pat.length = c :: rest := by
          rcases List.isPrefixOf_iff_prefix.mp hpre with ⟨t2, ht2⟩
          rw [← ht2, List.drop_left]
        constructor
        · rw [pySplitOn_cons_pos pat c rest hp hpre, hsq]
          show [] ++ pat ++ joinWith pat (hh :: tt) = c :: rest
          rw [List.nil_append]
          rw [show joinWith pat (hh :: tt) = (c :: rest).drop pat.length from by
            rw [← hsq]; exact hdrop.1]
          exact hpp
        · rw [pyReplace_cons pat rep c rest hp, if_pos hpre]
          rw [pySplitOn_cons_pos pat c rest hp hpre, hsq]
          show rep ++ pyReplace ((c :: rest).drop pat.length) pat rep
            = [] ++ rep ++ joinWith rep (hh :: tt)
          rw [List.nil_append]
          congr 1
          rw [← hsq]
          exact hdrop.2
    · have hrest := split_join pat rep hp rest
      rcases heq : pySplitOn pat rest with _ | ⟨hh, tt⟩
      · exact absurd heq (pySplitOn_ne_nil pat rest)
      · constructor
        · rw [pySplitOn_cons_neg pat c rest hp hpre, heq]
          simp only [List.headI, List.tail_cons]
          rw [show (c :: hh) = [c] ++ hh from rfl, joinWith_cons_cons pat [c] hh tt]
          simp only [List.singleton_append]
          rw [show joinWith pat (hh :: tt) = rest from by rw [← heq]; exact hrest.1]
        · rw [pyReplace_cons pat rep c rest hp, if_neg hpre]
          rw [pySplitOn_cons_neg pat c rest hp hpre, heq]
          simp only [List.headI, List.tail_cons]
          rw [show (c :: hh) = [c] ++ hh from rfl, joinWith_cons_cons rep [c] hh tt]
          simp only [List.singleton_append]
          rw [show pyReplace rest pat rep = joinWith rep (hh :: tt) from by
            rw [← heq]; exact hrest.2]
termination_by s => s.length
decreasing_by
  · have h1 : 1 ≤ pat.length := List.length_pos.mpr hp
    simp only [List.length_drop, List.length_cons]
    omega
  · simp

/-- C4 counterexample: response `w"'A'x"y` with unverified quotes
`A` and `[UNVERIFIED QUOTE REMOVED]x`.  The only wrapped occurrence of
a listed quote in the response is the single-quoted `A`, so the claim
mandates the output `w"[UNVERIFIED QUOTE REMOVED]x"y`, with every part
outside that occurrence (in particular `w`, both double quotes, `x`
and `y`) preserved.  The code instead also rewrites the occurrence of
the second quote that the first replacement created, producing
`w[UNVERIFIED QUOTE REMOVED]y`: the double quotes and the `x`, which
belonged to no delimited occurrence of a listed quote, are destroyed. -/
theorem remove_unverified_quotes_preservation_counterexample :
    remove_unverified_quotes ['w', dqc, sqc, 'A', sqc, 'x', dqc, 'y']
        [['A'], SENTINEL ++ ['x']]
      = ['w'] ++ SENTINEL ++ ['y']
    ∧ remove_unverified_quotes ['w', dqc, sqc, 'A', sqc, 'x', dqc, 'y']
        [['A'], SENTINEL ++ ['x']]
      ≠ ['w', dqc] ++ SENTINEL ++ ['x', dqc, 'y'] := by
  constructor
  · decide
  · decide

/-- C4 (amended): `remove_unverified_quotes` with an empty unverified
list returns the response unchanged; it processes the quotes
sequentially in list order, and each step replaces the left-to-right
non-overlapping occurrences, in the current working string, of the
double-quote-wrapped and then the single-quote-wrapped quote by the
sentinel, preserving the segments between those occurrences (the
`pySplitOn` decomposition: the segments joined by the pattern
reconstruct the input, and the replacement equals the segments joined
by the sentinel).  Occurrences are found in the working string, not the
original response, so a later quote may rewrite text produced or
exposed by an earlier replacement. -/
theorem remove_unverified_quotes_stepwise_replacement :
    (∀ r : List Char, remove_unverified_quotes r [] = r)
    ∧ (∀ (r q : List Char) (rest : List (List Char)),
        remove_unverified_quotes r (q :: rest)
          = remove_unverified_quotes
              (pyReplace (pyReplace r (dqc :: (q ++ [dqc])) SENTINEL)
                (sqc :: (q ++ [sqc])) SENTINEL) rest)
    ∧ (∀ (s pat rep : List Char), pat ≠ [] →
        joinWith pat (pySplitOn pat s) = s
        ∧ pyReplace s pat rep = joinWith rep (pySplitOn pat s)) :=
  ⟨fun _ => rfl, fun _ _ _ => rfl,
   fun s pat rep hp => split_join pat rep hp s⟩

/-- C4 witness: the single-replacement characterization applied to a
concrete string and pattern. -/
theorem remove_unverified_quotes_stepwise_replacement_witness :
    joinWith ['x'] (pySplitOn ['x'] "axbxc".data) = "axbxc".data
    ∧ pyReplace "axbxc".data ['x'] SENTINEL
        = joinWith SENTINEL (pySplitOn ['x'] "axbxc".data) :=
  remove_unverified_quotes_stepwise_replacement.2.2 "axbxc".data ['x'] SENTINEL
    (by decide)
